import Mathlib

/-!
# Verification of the weave-gitops release-version bumper

This development embeds the `VersionBumper` component of the repository's
release tooling (the `weavetooling release bump` command documented in
`src/tooling/README.md`): parsing a version string of shape `X.Y.Z` or
`X.Y.Z-rc.N`, applying one of seven bump kinds, and formatting the result.
The Python implementation itself is not part of the provided sources, so the
component is modelled from the specification's transition table, constrained
by the worked examples in the repository's own README.
-/

namespace VersionBumper

/-- Modelled from the spec: the structured version record of §3 (the Python
implementation of the tooling is not under src/).  `major`, `minor`, `patch`
are non-negative integers; `rc` is an optional release-candidate counter,
absent for a stable release. -/
structure Version where
  major : Nat
  minor : Nat
  patch : Nat
  rc : Option Nat
deriving DecidableEq, Repr

/-- Modelled from the spec: the enumerated bump request type of §3
(`patch`, `minor`, `major`, `rc`, `patch-rc`, `minor-rc`, `major-rc`). -/
inductive BumpKind where
  | patch
  | minor
  | major
  | rc
  | patchRc
  | minorRc
  | majorRc
deriving DecidableEq, Repr

/-- Modelled from the spec: the error raised by `Parse` on a malformed
version string (§7). -/
inductive ParseError where
  | parseError
deriving DecidableEq, Repr

/-- Modelled from the spec: the error raised when a caller supplies a bump
kind outside the enumerated set (§7, `InvalidBumpKind`). -/
inductive BumpError where
  | invalidBumpKind
deriving DecidableEq, Repr

/-- Modelled from the spec: the transition table of §4.1 for
`Bump(current, kind)`, with one exception.  For kind `rc` applied to a
stable version the spec's table says `patch += 1, rc = 1`, but the
repository's own documentation of the command (src/tooling/README.md lines
7-8, repeated in the second README) gives the example
`0.39.0` to `0.39.0-rc.1`: the rc track starts at the current
major.minor.patch, which is unchanged.  The README, being part of the
repository, is taken as the authority for that rule; every other row
follows the spec's table (plain kinds finalize an rc by dropping the
suffix, the `*-rc` kinds start a fresh rc.1 at the bumped target). -/
def Bump (v : Version) (k : BumpKind) : Version :=
  match k, v.rc with
  | .patch, none => { v with patch := v.patch + 1, rc := none }
  | .patch, some _ => { v with rc := none }
  | .minor, none => { v with minor := v.minor + 1, patch := 0, rc := none }
  | .minor, some _ => { v with rc := none }
  | .major, none => { v with major := v.major + 1, minor := 0, patch := 0, rc := none }
  | .major, some _ => { v with rc := none }
  | .rc, none => { v with rc := some 1 }
  | .rc, some n => { v with rc := some (n + 1) }
  | .patchRc, _ => { v with patch := v.patch + 1, rc := some 1 }
  | .minorRc, _ => { v with minor := v.minor + 1, patch := 0, rc := some 1 }
  | .majorRc, _ => { v with major := v.major + 1, minor := 0, patch := 0, rc := some 1 }

/-- Numeric value of a decimal digit character. -/
def charVal (c : Char) : Nat := c.toNat - 48

/-- Standard integer parsing of a big-endian digit string
(`int()` over the captured group of the version regex). -/
def digitsToNat (ds : List Char) : Nat :=
  ds.foldl (fun n c => 10 * n + charVal c) 0

/-- The longest leading run of decimal digits, together with the rest of the
input (the behaviour of a `\d+` capture at the current position). -/
def spanDigits : List Char → List Char × List Char
  | [] => ([], [])
  | c :: rest =>
    if c.isDigit then (c :: (spanDigits rest).1, (spanDigits rest).2)
    else ([], c :: rest)

/-- Whether the input starts with a decimal digit (the lookahead that stops
a `\d+` capture). -/
def headDigit : List Char → Bool
  | [] => false
  | c :: _ => c.isDigit

/-- One `\d+` capture: a non-empty maximal digit run, returned as its
numeric value together with the rest of the input. -/
def parseNum (r : List Char) : Option (Nat × List Char) :=
  if (spanDigits r).1.isEmpty then none
  else some (digitsToNat (spanDigits r).1, (spanDigits r).2)

/-- One literal `.`: consume a leading dot or fail. -/
def dot (r : List Char) : Option (List Char) :=
  match r with
  | [] => none
  | c :: t => if c = '.' then some t else none

/-- Modelled from the spec: `Parse` of §4.1 (the Python implementation is
not under src/).  Accepts exactly the strings matching
`D+.D+.D+` optionally followed by `-rc.D+`, as a recursive-descent
rendering of that anchored regular expression over the character list. -/
def parseChars (cs : List Char) : Option Version :=
  (parseNum cs).bind fun s1 =>
    (dot s1.2).bind fun r1 =>
      (parseNum r1).bind fun s2 =>
        (dot s2.2).bind fun r2 =>
          (parseNum r2).bind fun s3 =>
            if s3.2 = [] then some ⟨s1.1, s2.1, s3.1, none⟩
            else if s3.2.take 4 = ['-', 'r', 'c', '.'] then
              (parseNum (s3.2.drop 4)).bind fun s4 =>
                if s4.2 = [] then some ⟨s1.1, s2.1, s3.1, some s4.1⟩ else none
            else none

/-- Modelled from the spec: `Parse(raw) : Version | ParseError` (§4.1, §7). -/
def Parse (s : String) : Except ParseError Version :=
  match parseChars s.data with
  | some v => Except.ok v
  | none => Except.error ParseError.parseError

/-- Decimal rendering of a natural number as a digit-character list. -/
def natToChars (n : Nat) : List Char :=
  if n = 0 then ['0'] else ((Nat.digits 10 n).map Nat.digitChar).reverse

/-- Modelled from the spec: the character-level body of `Format` (§4.1):
`MAJOR.MINOR.PATCH` when `rc` is absent, `MAJOR.MINOR.PATCH-rc.N` when
present. -/
def formatChars (v : Version) : List Char :=
  natToChars v.major ++ ('.' :: (natToChars v.minor ++ ('.' :: (natToChars v.patch ++
    match v.rc with
    | none => []
    | some n => '-' :: 'r' :: 'c' :: '.' :: natToChars n))))

/-- Modelled from the spec: `Format(v)` of §4.1. -/
def Format (v : Version) : String :=
  String.mk (formatChars v)

/-- Modelled from the spec: the closed set of kind strings accepted by the
CLI (`[patch|minor|major|rc|patch-rc|minor-rc|major-rc]`, README line 7). -/
def kindStrings : List String :=
  ["patch", "minor", "major", "rc", "patch-rc", "minor-rc", "major-rc"]

/-- Modelled from the spec: classification of the caller-supplied kind
string into the enumerated `BumpKind`, `none` for anything else. -/
def kindOfString (s : String) : Option BumpKind :=
  if s = "patch" then some .patch
  else if s = "minor" then some .minor
  else if s = "major" then some .major
  else if s = "rc" then some .rc
  else if s = "patch-rc" then some .patchRc
  else if s = "minor-rc" then some .minorRc
  else if s = "major-rc" then some .majorRc
  else none

/-- Modelled from the spec: the bump entry point as the caller sees it — a
kind string outside the enumerated set is `InvalidBumpKind`, and `Bump`
itself never fails (§7). -/
def BumpCommand (s : String) (v : Version) : Except BumpError Version :=
  match kindOfString s with
  | some k => Except.ok (Bump v k)
  | none => Except.error BumpError.invalidBumpKind

/-- The data-model invariant on the rc field: when present, the counter is
at least 1 (§3). -/
def rcValid (v : Version) : Bool :=
  match v.rc with
  | none => true
  | some n => decide (1 ≤ n)

/-- A non-empty all-digit character string (one `D+` group of the
version-string shape). -/
def digitStr (l : List Char) : Bool :=
  !l.isEmpty && l.all Char.isDigit

/-- The version-string shape of §4.1: `D+.D+.D+` optionally followed by
`-rc.D+`. -/
def ValidShape (cs : List Char) : Prop :=
  ∃ a b c, digitStr a = true ∧ digitStr b = true ∧ digitStr c = true ∧
    (cs = a ++ ('.' :: (b ++ ('.' :: c))) ∨
      ∃ d, digitStr d = true ∧
        cs = a ++ ('.' :: (b ++ ('.' :: (c ++ ('-' :: 'r' :: 'c' :: '.' :: d))))))

/-- A canonical `D+` group: no leading zero unless the group is exactly
`0`. -/
def canonNum (l : List Char) : Bool :=
  digitStr l && (l = ['0'] || l.head? != some '0')

/-- The canonical version-string shape: the shape of §4.1 with every
numeric group written without leading zeros. -/
def CanonShape (cs : List Char) : Prop :=
  ∃ a b c, canonNum a = true ∧ canonNum b = true ∧ canonNum c = true ∧
    (cs = a ++ ('.' :: (b ++ ('.' :: c))) ∨
      ∃ d, canonNum d = true ∧
        cs = a ++ ('.' :: (b ++ ('.' :: (c ++ ('-' :: 'r' :: 'c' :: '.' :: d))))))

deriving instance DecidableEq for Except

/-- The kind-string classifier rejects a string exactly when it is outside
the enumerated set. -/
theorem kindOfString_none_iff (s : String) :
    kindOfString s = none ↔ s ∉ kindStrings := by
  unfold kindOfString kindStrings
  split_ifs <;> simp_all

/-- A digit span splits its input: the captured digits followed by the rest
reassemble to the input. -/
theorem spanDigits_append_eq (cs : List Char) :
    (spanDigits cs).1 ++ (spanDigits cs).2 = cs := by
  induction cs with
  | nil => rfl
  | cons c rest ih =>
    by_cases hc : c.isDigit
    · simp [spanDigits, hc, ih]
    · simp [spanDigits, hc]

/-- Every character captured by a digit span is a digit. -/
theorem spanDigits_all_digits (cs : List Char) :
    (spanDigits cs).1.all Char.isDigit = true := by
  induction cs with
  | nil => rfl
  | cons c rest ih =>
    by_cases hc : c.isDigit
    · simp [spanDigits, hc, ih]
    · simp [spanDigits, hc]

/-- The rest after a digit span does not start with a digit. -/
theorem headDigit_spanDigits (cs : List Char) :
    headDigit (spanDigits cs).2 = false := by
  induction cs with
  | nil => rfl
  | cons c rest ih =>
    by_cases hc : c.isDigit
    · simpa [spanDigits, hc] using ih
    · simp [spanDigits, hc, headDigit]

/-- A digit span over an all-digit block followed by a non-digit-headed
rest captures exactly the block. -/
theorem spanDigits_of_append (a r : List Char) (ha : a.all Char.isDigit = true)
    (hr : headDigit r = false) : spanDigits (a ++ r) = (a, r) := by
  induction a with
  | nil =>
    cases r with
    | nil => rfl
    | cons c t => simp [headDigit] at hr; simp [spanDigits, hr]
  | cons c a ih =>
    simp only [List.all_cons, Bool.and_eq_true] at ha
    simp [spanDigits, ha.1, ih ha.2]

/-- Digit characters are exactly those with code points 48 through 57. -/
theorem isDigit_toNat_bounds (c : Char) (h : c.isDigit = true) :
    48 ≤ c.toNat ∧ c.toNat ≤ 57 := by
  simp [Char.isDigit] at h
  exact h

/-- A digit character is recovered from its numeric value. -/
theorem digitChar_charVal (c : Char) (h : c.isDigit = true) :
    Nat.digitChar (charVal c) = c := by
  obtain ⟨h1, h2⟩ := isDigit_toNat_bounds c h
  have hchar : (Nat.digitChar (c.toNat - 48)).toNat = 48 + (c.toNat - 48) := by
    have hb : c.toNat - 48 < 10 := by omega
    interval_cases hi : (c.toNat - 48) <;> rfl
  have he : 48 + (c.toNat - 48) = c.toNat := by omega
  calc Nat.digitChar (charVal c)
      = Char.ofNat (Nat.digitChar (c.toNat - 48)).toNat := (Char.ofNat_toNat _).symm
    _ = Char.ofNat c.toNat := by rw [hchar, he]
    _ = c := Char.ofNat_toNat c

/-- The numeric value of a digit character is below 10. -/
theorem charVal_lt_ten (c : Char) (h : c.isDigit = true) : charVal c < 10 := by
  obtain ⟨h1, h2⟩ := isDigit_toNat_bounds c h
  unfold charVal
  omega

/-- The numeric value of a decimal digit below 10 renders back to it. -/
theorem charVal_digitChar (d : Nat) (h : d < 10) :
    charVal (Nat.digitChar d) = d := by
  interval_cases d <;> rfl

/-- Rendering a decimal digit below 10 yields a digit character. -/
theorem isDigit_digitChar (d : Nat) (h : d < 10) :
    (Nat.digitChar d).isDigit = true := by
  interval_cases d <;> rfl

/-- A nonzero digit character has nonzero numeric value. -/
theorem charVal_ne_zero (c : Char) (h : c.isDigit = true) (hne : c ≠ '0') :
    charVal c ≠ 0 := by
  obtain ⟨h1, h2⟩ := isDigit_toNat_bounds c h
  intro h0
  apply hne
  have he : c.toNat = 48 := by unfold charVal at h0; omega
  calc c = Char.ofNat c.toNat := (Char.ofNat_toNat c).symm
    _ = '0' := by rw [he]

/-- Folding one more digit onto the right multiplies the accumulated value
by ten and adds the digit. -/
theorem digitsToNat_append_single (xs : List Char) (y : Char) :
    digitsToNat (xs ++ [y]) = 10 * digitsToNat xs + charVal y := by
  simp [digitsToNat, List.foldl_append]

/-- Big-endian digit-character evaluation agrees with little-endian
`Nat.ofDigits` evaluation of the rendered digits. -/
theorem digitsToNat_rev_map (l : List Nat) (h : ∀ x ∈ l, x < 10) :
    digitsToNat ((l.map Nat.digitChar).reverse) = Nat.ofDigits 10 l := by
  induction l with
  | nil => simp [digitsToNat]
  | cons d t ih =>
    have hd : d < 10 := h d (List.mem_cons_self d t)
    have ht : ∀ x ∈ t, x < 10 := fun x hx => h x (List.mem_cons_of_mem d hx)
    simp only [List.map_cons, List.reverse_cons]
    rw [digitsToNat_append_single, ih ht, Nat.ofDigits_cons,
      charVal_digitChar d hd]
    ring

/-- The rendering of a natural number is a non-empty all-digit string. -/
theorem digitStr_natToChars (n : Nat) : digitStr (natToChars n) = true := by
  unfold natToChars
  split
  · rfl
  · rename_i hn
    have hne : Nat.digits 10 n ≠ [] := Nat.digits_ne_nil_iff_ne_zero.2 hn
    have hall : ∀ c ∈ ((Nat.digits 10 n).map Nat.digitChar).reverse,
        c.isDigit = true := by
      intro c hc
      simp only [List.mem_reverse, List.mem_map] at hc
      obtain ⟨d, hd, rfl⟩ := hc
      exact isDigit_digitChar d (Nat.digits_lt_base (by norm_num) hd)
    simp only [digitStr, Bool.and_eq_true, Bool.not_eq_true', List.all_eq_true]
    constructor
    · simp [List.isEmpty_eq_false_iff_exists_mem, hne]
    · exact hall

/-- Parsing back the decimal rendering of a natural number returns it. -/
theorem digitsToNat_natToChars (n : Nat) : digitsToNat (natToChars n) = n := by
  unfold natToChars
  split
  · rename_i h; rw [h]; rfl
  · rw [digitsToNat_rev_map _ (fun x hx => Nat.digits_lt_base (by norm_num) hx),
      Nat.ofDigits_digits]

/-- Big-endian evaluation of an all-digit string is `Nat.ofDigits` of its
reversed digit values. -/
theorem digitsToNat_eq_ofDigits (ds : List Char) (h : ds.all Char.isDigit = true) :
    digitsToNat ds = Nat.ofDigits 10 ((ds.map charVal).reverse) := by
  have hmap : ((((ds.map charVal).reverse).map Nat.digitChar).reverse) = ds := by
    rw [List.map_reverse, List.reverse_reverse, List.map_map]
    have hcongr : ∀ x ∈ ds, (Nat.digitChar ∘ charVal) x = x := by
      intro x hx
      exact digitChar_charVal x (by
        rw [List.all_eq_true] at h
        simpa using h x hx)
    rw [List.map_congr_left hcongr]
    simp
  have hlt : ∀ x ∈ (ds.map charVal).reverse, x < 10 := by
    intro x hx
    simp only [List.mem_reverse, List.mem_map] at hx
    obtain ⟨c, hc, rfl⟩ := hx
    exact charVal_lt_ten c (by
      rw [List.all_eq_true] at h
      simpa using h c hc)
  calc digitsToNat ds
      = digitsToNat ((((ds.map charVal).reverse).map Nat.digitChar).reverse) := by
        rw [hmap]
    _ = Nat.ofDigits 10 ((ds.map charVal).reverse) := digitsToNat_rev_map _ hlt

/-- Rendering the value of a canonical digit string returns the string. -/
theorem natToChars_digitsToNat (ds : List Char) (h : canonNum ds = true) :
    natToChars (digitsToNat ds) = ds := by
  simp only [canonNum, Bool.and_eq_true, Bool.or_eq_true] at h
  obtain ⟨hds, hcanon⟩ := h
  have hall : ds.all Char.isDigit = true := by
    simp only [digitStr, Bool.and_eq_true] at hds
    exact hds.2
  have hne : ds ≠ [] := by
    simp only [digitStr, Bool.and_eq_true, Bool.not_eq_true'] at hds
    intro h0
    rw [h0] at hds
    simp at hds
  by_cases h0 : ds = ['0']
  · rw [h0]; rfl
  · have hhead : ds.head? ≠ some '0' := by
      rcases hcanon with hc | hc
      · exact absurd (of_decide_eq_true hc) h0
      · intro heq
        rw [heq] at hc
        simp at hc
    obtain ⟨c, t, rfl⟩ : ∃ c t, ds = c :: t := by
      cases ds with
      | nil => exact absurd rfl hne
      | cons c t => exact ⟨c, t, rfl⟩
    have hcdigit : c.isDigit = true := by
      rw [List.all_eq_true] at hall
      simpa using hall c (List.mem_cons_self c t)
    have hcne : c ≠ '0' := by
      intro hcc
      exact hhead (by rw [hcc]; rfl)
    have hlt : ∀ x ∈ (((c :: t).map charVal).reverse), x < 10 := by
      intro x hx
      simp only [List.mem_reverse, List.mem_map] at hx
      obtain ⟨e, he, rfl⟩ := hx
      exact charVal_lt_ten e (by
        rw [List.all_eq_true] at hall
        simpa using hall e he)
    have hlast : ∀ (hh : (((c :: t).map charVal).reverse) ≠ []),
        (((c :: t).map charVal).reverse).getLast hh ≠ 0 := by
      intro hh
      have hq : (((c :: t).map charVal).reverse).getLast? = some (charVal c) := by
        rw [List.getLast?_reverse]
        simp
      rw [List.getLast?_eq_getLast _ hh] at hq
      have := Option.some.inj hq
      rw [this]
      exact charVal_ne_zero c hcdigit hcne
    have hdig : Nat.digits 10 (Nat.ofDigits 10 (((c :: t).map charVal).reverse))
        = ((c :: t).map charVal).reverse :=
      Nat.digits_ofDigits 10 (by norm_num) _ hlt hlast
    have hofne : Nat.ofDigits 10 (((c :: t).map charVal).reverse) ≠ 0 := by
      intro hz
      rw [hz] at hdig
      simp at hdig
    rw [digitsToNat_eq_ofDigits _ hall]
    unfold natToChars
    rw [if_neg hofne, hdig, List.map_reverse, List.reverse_reverse, List.map_map]
    have hcongr : ∀ x ∈ c :: t, (Nat.digitChar ∘ charVal) x = x := by
      intro x hx
      exact digitChar_charVal x (by
        rw [List.all_eq_true] at hall
        simpa using hall x hx)
    rw [List.map_congr_left hcongr]
    simp

/-- A dot does not start with a digit. -/
theorem headDigit_dot (t : List Char) : headDigit ('.' :: t) = false := rfl

/-- A dash does not start with a digit. -/
theorem headDigit_dash (t : List Char) : headDigit ('-' :: t) = false := rfl

/-- A `\d+` capture over a digit block followed by a non-digit-headed rest
returns the block's value and the rest. -/
theorem parseNum_of_append (a r : List Char) (ha : digitStr a = true)
    (hr : headDigit r = false) :
    parseNum (a ++ r) = some (digitsToNat a, r) := by
  simp only [digitStr, Bool.and_eq_true, Bool.not_eq_true'] at ha
  simp [parseNum, spanDigits_of_append a r ha.2 hr, ha.1]

/-- A `\d+` capture over a digit block alone consumes the whole input. -/
theorem parseNum_all (a : List Char) (ha : digitStr a = true) :
    parseNum a = some (digitsToNat a, []) := by
  have h := parseNum_of_append a [] ha rfl
  simpa using h

/-- Consuming a literal dot succeeds exactly on a leading dot. -/
theorem dot_cons (t : List Char) : dot ('.' :: t) = some t := by
  simp [dot]

/-- A successful `\d+` capture decomposes its input. -/
theorem parseNum_sound (r : List Char) (x : Nat) (rest : List Char)
    (h : parseNum r = some (x, rest)) :
    ∃ a, digitStr a = true ∧ r = a ++ rest ∧ x = digitsToNat a := by
  unfold parseNum at h
  split at h
  · exact absurd h (by simp)
  · rename_i hne
    refine ⟨(spanDigits r).1, ?_, ?_, ?_⟩
    · simp only [digitStr, Bool.and_eq_true, Bool.not_eq_true']
      exact ⟨by simpa using hne, spanDigits_all_digits r⟩
    · have hinj := Option.some.inj h
      have h2 : rest = (spanDigits r).2 := (congrArg Prod.snd hinj).symm
      rw [h2]
      exact (spanDigits_append_eq r).symm
    · exact (congrArg Prod.fst (Option.some.inj h)).symm

/-- A successful dot consumption decomposes its input. -/
theorem dot_sound (r t : List Char) (h : dot r = some t) : r = '.' :: t := by
  cases r with
  | nil => simp [dot] at h
  | cons c t' =>
    simp only [dot] at h
    split at h
    · rename_i hc
      rw [hc, Option.some.inj h]
    · simp at h

/-- The parser accepts a stable-shaped input and returns the three parsed
components. -/
theorem parseChars_stable (a b c : List Char) (ha : digitStr a = true)
    (hb : digitStr b = true) (hc : digitStr c = true) :
    parseChars (a ++ ('.' :: (b ++ ('.' :: c)))) =
      some ⟨digitsToNat a, digitsToNat b, digitsToNat c, none⟩ := by
  rw [parseChars, parseNum_of_append a _ ha (headDigit_dot _)]
  simp only [Option.some_bind]
  rw [dot_cons]
  simp only [Option.some_bind]
  rw [parseNum_of_append b _ hb (headDigit_dot _)]
  simp only [Option.some_bind]
  rw [dot_cons]
  simp only [Option.some_bind]
  rw [parseNum_all c hc]
  simp

/-- The parser accepts an rc-shaped input and returns the four parsed
components. -/
theorem parseChars_rc (a b c d : List Char) (ha : digitStr a = true)
    (hb : digitStr b = true) (hc : digitStr c = true) (hd : digitStr d = true) :
    parseChars (a ++ ('.' :: (b ++ ('.' :: (c ++ ('-' :: 'r' :: 'c' :: '.' :: d)))))) =
      some ⟨digitsToNat a, digitsToNat b, digitsToNat c, some (digitsToNat d)⟩ := by
  rw [parseChars, parseNum_of_append a _ ha (headDigit_dot _)]
  simp only [Option.some_bind]
  rw [dot_cons]
  simp only [Option.some_bind]
  rw [parseNum_of_append b _ hb (headDigit_dot _)]
  simp only [Option.some_bind]
  rw [dot_cons]
  simp only [Option.some_bind]
  rw [parseNum_of_append c _ hc (headDigit_dash _)]
  simp only [Option.some_bind, List.take, List.drop]
  rw [parseNum_all d hd]
  simp

/-- A successful parse means the input has the version-string shape. -/
theorem parseChars_sound (cs : List Char) (v : Version)
    (h : parseChars cs = some v) : ValidShape cs := by
  rw [parseChars] at h
  rcases E1 : parseNum cs with _ | ⟨ma, r1⟩ <;> rw [E1] at h
  · simp at h
  simp only [Option.some_bind] at h
  rcases E2 : dot r1 with _ | r1' <;> rw [E2] at h
  · simp at h
  simp only [Option.some_bind] at h
  rcases E3 : parseNum r1' with _ | ⟨mi, r2⟩ <;> rw [E3] at h
  · simp at h
  simp only [Option.some_bind] at h
  rcases E4 : dot r2 with _ | r2' <;> rw [E4] at h
  · simp at h
  simp only [Option.some_bind] at h
  rcases E5 : parseNum r2' with _ | ⟨pa, r3⟩ <;> rw [E5] at h
  · simp at h
  simp only [Option.some_bind] at h
  obtain ⟨a, hda, hcseq, _⟩ := parseNum_sound cs ma r1 E1
  obtain ⟨b, hdb, hr1eq, _⟩ := parseNum_sound r1' mi r2 E3
  obtain ⟨c, hdc, hr2eq, _⟩ := parseNum_sound r2' pa r3 E5
  have hr1 := dot_sound r1 r1' E2
  have hr2 := dot_sound r2 r2' E4
  split at h
  · rename_i h30
    refine ⟨a, b, c, hda, hdb, hdc, Or.inl ?_⟩
    rw [hcseq, hr1, hr1eq, hr2, hr2eq, h30]
    simp
  · split at h
    · rename_i h3ne htake
      rcases E6 : parseNum (r3.drop 4) with _ | ⟨n, r5⟩ <;> rw [E6] at h
      · simp at h
      simp only [Option.some_bind] at h
      split at h
      · rename_i h50
        obtain ⟨d, hdd, hdeq, _⟩ := parseNum_sound (r3.drop 4) n r5 E6
        refine ⟨a, b, c, hda, hdb, hdc, Or.inr ⟨d, hdd, ?_⟩⟩
        have hr3 : r3 = '-' :: 'r' :: 'c' :: '.' :: d := by
          have hsplit : r3.take 4 ++ r3.drop 4 = r3 :=
            List.take_append_drop 4 r3
          rw [htake, hdeq, h50] at hsplit
          simpa using hsplit.symm
        rw [hcseq, hr1, hr1eq, hr2, hr2eq, hr3]
      · simp at h
    · simp at h

/-- The formatted characters of a stable version, written as the stable
shape decomposition. -/
theorem formatChars_stable_eq (ma mi pa : Nat) :
    formatChars ⟨ma, mi, pa, none⟩ =
      natToChars ma ++ ('.' :: (natToChars mi ++ ('.' :: natToChars pa))) := by
  simp [formatChars]

/-- The formatted characters of an rc version, written as the rc shape
decomposition. -/
theorem formatChars_rc_eq (ma mi pa n : Nat) :
    formatChars ⟨ma, mi, pa, some n⟩ =
      natToChars ma ++ ('.' :: (natToChars mi ++ ('.' ::
        (natToChars pa ++ ('-' :: 'r' :: 'c' :: '.' :: natToChars n))))) := by
  simp [formatChars]

/-- Parsing the formatted characters of any version returns it. -/
theorem parseChars_formatChars (v : Version) :
    parseChars (formatChars v) = some v := by
  obtain ⟨ma, mi, pa, r⟩ := v
  cases r with
  | none =>
    rw [formatChars_stable_eq,
      parseChars_stable _ _ _ (digitStr_natToChars ma) (digitStr_natToChars mi)
        (digitStr_natToChars pa)]
    simp [digitsToNat_natToChars]
  | some n =>
    rw [formatChars_rc_eq,
      parseChars_rc _ _ _ _ (digitStr_natToChars ma) (digitStr_natToChars mi)
        (digitStr_natToChars pa) (digitStr_natToChars n)]
    simp [digitsToNat_natToChars]

/-- Canonical numeric groups are in particular valid numeric groups. -/
theorem canonNum_digitStr (l : List Char) (h : canonNum l = true) :
    digitStr l = true := by
  simp only [canonNum, Bool.and_eq_true] at h
  exact h.1

/-- Parsing a canonical version string and formatting the result returns
the original characters. -/
theorem parseChars_canon (cs : List Char) (h : CanonShape cs) :
    (parseChars cs).map formatChars = some cs := by
  obtain ⟨a, b, c, ha, hb, hc, hcase⟩ := h
  rcases hcase with rfl | ⟨d, hd, rfl⟩
  · rw [parseChars_stable a b c (canonNum_digitStr a ha) (canonNum_digitStr b hb)
      (canonNum_digitStr c hc)]
    simp only [Option.map_some']
    rw [formatChars_stable_eq, natToChars_digitsToNat a ha,
      natToChars_digitsToNat b hb, natToChars_digitsToNat c hc]
  · rw [parseChars_rc a b c d (canonNum_digitStr a ha) (canonNum_digitStr b hb)
      (canonNum_digitStr c hc) (canonNum_digitStr d hd)]
    simp only [Option.map_some']
    rw [formatChars_rc_eq, natToChars_digitsToNat a ha,
      natToChars_digitsToNat b hb, natToChars_digitsToNat c hc,
      natToChars_digitsToNat d hd]

/-- Formatting any version yields a string of the version-string shape. -/
theorem validShape_formatChars (v : Version) : ValidShape (formatChars v) := by
  obtain ⟨ma, mi, pa, r⟩ := v
  cases r with
  | none =>
    exact ⟨natToChars ma, natToChars mi, natToChars pa, digitStr_natToChars ma,
      digitStr_natToChars mi, digitStr_natToChars pa,
      Or.inl (formatChars_stable_eq ma mi pa)⟩
  | some n =>
    exact ⟨natToChars ma, natToChars mi, natToChars pa, digitStr_natToChars ma,
      digitStr_natToChars mi, digitStr_natToChars pa,
      Or.inr ⟨natToChars n, digitStr_natToChars n, formatChars_rc_eq ma mi pa n⟩⟩

/-- C1: the spec says `rc` on a stable version increments the patch
(`0.39.0` to `0.39.1-rc.1`), but the repository's README documents
`0.39.0` to `0.39.0-rc.1`: the patch is not incremented. -/
theorem C1_rc_from_stable_counterexample :
    Parse "0.39.0" = Except.ok ⟨0, 39, 0, none⟩ ∧
    Parse "0.39.1-rc.1" = Except.ok ⟨0, 39, 1, some 1⟩ ∧
    Bump ⟨0, 39, 0, none⟩ BumpKind.rc ≠ ⟨0, 39, 1, some 1⟩ := by
  refine ⟨rfl, rfl, by decide⟩

/-- C1 (amended): for every stable Version v (rc absent), Bump(v, rc)
returns a Version with the same major, minor and patch and rc = 1; in
particular Bump(Parse("0.39.0"), rc) = Parse("0.39.0-rc.1"). -/
theorem C1_rc_from_stable (v : Version) (h : v.rc = none) :
    Bump v BumpKind.rc = ⟨v.major, v.minor, v.patch, some 1⟩ ∧
    Parse "0.39.0" = Except.ok ⟨0, 39, 0, none⟩ ∧
    Bump ⟨0, 39, 0, none⟩ BumpKind.rc = ⟨0, 39, 0, some 1⟩ ∧
    Parse "0.39.0-rc.1" = Except.ok ⟨0, 39, 0, some 1⟩ := by
  obtain ⟨ma, mi, pa, r⟩ := v
  cases h
  exact ⟨rfl, rfl, rfl, rfl⟩

theorem C1_rc_from_stable_witness :
    Bump ⟨1, 2, 3, none⟩ BumpKind.rc = ⟨1, 2, 3, some 1⟩ :=
  (C1_rc_from_stable ⟨1, 2, 3, none⟩ rfl).1

/-- C2: for every Version with rc present, each plain kind (patch, minor,
major) finalizes: it returns the stable Version with the same major, minor
and patch and rc absent, incrementing nothing. -/
theorem C2_plain_kinds_finalize (v : Version) (n : Nat) (h : v.rc = some n) :
    Bump v BumpKind.patch = ⟨v.major, v.minor, v.patch, none⟩ ∧
    Bump v BumpKind.minor = ⟨v.major, v.minor, v.patch, none⟩ ∧
    Bump v BumpKind.major = ⟨v.major, v.minor, v.patch, none⟩ := by
  obtain ⟨ma, mi, pa, r⟩ := v
  cases h
  exact ⟨rfl, rfl, rfl⟩

theorem C2_plain_kinds_finalize_witness :
    Bump ⟨0, 39, 1, some 2⟩ BumpKind.patch = ⟨0, 39, 1, none⟩ ∧
    Bump ⟨0, 39, 1, some 2⟩ BumpKind.minor = ⟨0, 39, 1, none⟩ ∧
    Bump ⟨0, 39, 1, some 2⟩ BumpKind.major = ⟨0, 39, 1, none⟩ :=
  C2_plain_kinds_finalize ⟨0, 39, 1, some 2⟩ 2 rfl

/-- C3: for every Version with rc present, each `*-rc` kind discards the
current rc counter, applies its class bump to major.minor.patch, and
restarts the counter at rc = 1. -/
theorem C3_rc_kinds_restart (v : Version) (n : Nat) (h : v.rc = some n) :
    Bump v BumpKind.patchRc = ⟨v.major, v.minor, v.patch + 1, some 1⟩ ∧
    Bump v BumpKind.minorRc = ⟨v.major, v.minor + 1, 0, some 1⟩ ∧
    Bump v BumpKind.majorRc = ⟨v.major + 1, 0, 0, some 1⟩ := by
  obtain ⟨ma, mi, pa, r⟩ := v
  cases h
  exact ⟨rfl, rfl, rfl⟩

theorem C3_rc_kinds_restart_witness :
    Bump ⟨1, 4, 2, some 5⟩ BumpKind.patchRc = ⟨1, 4, 3, some 1⟩ ∧
    Bump ⟨1, 4, 2, some 5⟩ BumpKind.minorRc = ⟨1, 5, 0, some 1⟩ ∧
    Bump ⟨1, 4, 2, some 5⟩ BumpKind.majorRc = ⟨2, 0, 0, some 1⟩ :=
  C3_rc_kinds_restart ⟨1, 4, 2, some 5⟩ 5 rfl

/-- C4: for every stable Version, `minor-rc` increments minor and zeroes
patch with rc = 1, and `major-rc` increments major and zeroes minor and
patch with rc = 1; in particular 0.39.5 goes to 0.40.0-rc.1 and 1.2.3 goes
to 2.0.0-rc.1. -/
theorem C4_rc_kinds_from_stable (v : Version) (h : v.rc = none) :
    Bump v BumpKind.minorRc = ⟨v.major, v.minor + 1, 0, some 1⟩ ∧
    Bump v BumpKind.majorRc = ⟨v.major + 1, 0, 0, some 1⟩ ∧
    Parse "0.39.5" = Except.ok ⟨0, 39, 5, none⟩ ∧
    Bump ⟨0, 39, 5, none⟩ BumpKind.minorRc = ⟨0, 40, 0, some 1⟩ ∧
    Parse "0.40.0-rc.1" = Except.ok ⟨0, 40, 0, some 1⟩ ∧
    Parse "1.2.3" = Except.ok ⟨1, 2, 3, none⟩ ∧
    Bump ⟨1, 2, 3, none⟩ BumpKind.majorRc = ⟨2, 0, 0, some 1⟩ ∧
    Parse "2.0.0-rc.1" = Except.ok ⟨2, 0, 0, some 1⟩ := by
  obtain ⟨ma, mi, pa, r⟩ := v
  cases h
  exact ⟨rfl, rfl, rfl, rfl, rfl, rfl, rfl, rfl⟩

theorem C4_rc_kinds_from_stable_witness :
    Bump ⟨0, 39, 5, none⟩ BumpKind.minorRc = ⟨0, 40, 0, some 1⟩ ∧
    Bump ⟨0, 39, 5, none⟩ BumpKind.majorRc = ⟨1, 0, 0, some 1⟩ :=
  ⟨(C4_rc_kinds_from_stable ⟨0, 39, 5, none⟩ rfl).1,
    (C4_rc_kinds_from_stable ⟨0, 39, 5, none⟩ rfl).2.1⟩

/-- C5: for every Version with rc = N present, the `rc` kind keeps
major.minor.patch and advances the counter to N + 1; in particular
0.39.0-rc.2 goes to 0.39.0-rc.3. -/
theorem C5_rc_continuation (v : Version) (n : Nat) (h : v.rc = some n) :
    Bump v BumpKind.rc = ⟨v.major, v.minor, v.patch, some (n + 1)⟩ ∧
    Parse "0.39.0-rc.2" = Except.ok ⟨0, 39, 0, some 2⟩ ∧
    Bump ⟨0, 39, 0, some 2⟩ BumpKind.rc = ⟨0, 39, 0, some 3⟩ ∧
    Parse "0.39.0-rc.3" = Except.ok ⟨0, 39, 0, some 3⟩ := by
  obtain ⟨ma, mi, pa, r⟩ := v
  cases h
  exact ⟨rfl, rfl, rfl, rfl⟩

theorem C5_rc_continuation_witness :
    Bump ⟨0, 39, 0, some 2⟩ BumpKind.rc = ⟨0, 39, 0, some 3⟩ :=
  (C5_rc_continuation ⟨0, 39, 0, some 2⟩ 2 rfl).1

/-- C8: the bump entry point succeeds for exactly the seven enumerated kind
strings, and any other kind string fails with InvalidBumpKind; Bump itself
has no failure branch. -/
theorem C8_bump_total (s : String) (v : Version) :
    ((∃ w, BumpCommand s v = Except.ok w) ↔ s ∈ kindStrings) ∧
    (s ∉ kindStrings → BumpCommand s v = Except.error BumpError.invalidBumpKind) := by
  refine ⟨⟨?_, ?_⟩, ?_⟩
  · rintro ⟨w, hw⟩
    by_contra hs
    have hn := (kindOfString_none_iff s).2 hs
    simp [BumpCommand, hn] at hw
  · intro hs
    cases hk : kindOfString s with
    | none => exact absurd ((kindOfString_none_iff s).1 hk) (by simp [hs])
    | some k => exact ⟨Bump v k, by simp [BumpCommand, hk]⟩
  · intro hs
    simp [BumpCommand, (kindOfString_none_iff s).2 hs]

theorem C8_bump_total_witness :
    BumpCommand "bogus" ⟨1, 2, 3, none⟩ = Except.error BumpError.invalidBumpKind :=
  (C8_bump_total "bogus" ⟨1, 2, 3, none⟩).2 (by decide)

/-- C10: Parse, Bump and Format are deterministic pure functions — equal
inputs give equal outputs; in this embedding the input Version is an
immutable value, so no call mutates it. -/
theorem C10_deterministic (s1 s2 : String) (v1 v2 : Version) (k1 k2 : BumpKind)
    (hs : s1 = s2) (hv : v1 = v2) (hk : k1 = k2) :
    Parse s1 = Parse s2 ∧ Bump v1 k1 = Bump v2 k2 ∧ Format v1 = Format v2 := by
  subst hs; subst hv; subst hk
  exact ⟨rfl, rfl, rfl⟩

theorem C10_deterministic_witness :
    Parse "1.2.3" = Parse "1.2.3" ∧
    Bump ⟨1, 2, 3, none⟩ BumpKind.patch = Bump ⟨1, 2, 3, none⟩ BumpKind.patch ∧
    Format ⟨1, 2, 3, none⟩ = Format ⟨1, 2, 3, none⟩ :=
  C10_deterministic "1.2.3" "1.2.3" ⟨1, 2, 3, none⟩ ⟨1, 2, 3, none⟩
    BumpKind.patch BumpKind.patch rfl rfl rfl

/-- C6: the claim also asserts Format(Parse(s)) = s for every syntactically
valid string s, but Parse performs standard integer parsing, so the valid
string "01.2.3" parses to 1.2.3 and formats back to "1.2.3", not
"01.2.3". -/
theorem C6_leading_zero_counterexample :
    ValidShape (String.data "01.2.3") ∧
    Parse "01.2.3" = Except.ok ⟨1, 2, 3, none⟩ ∧
    Format ⟨1, 2, 3, none⟩ = "1.2.3" ∧
    (Parse "01.2.3").map Format ≠ Except.ok "01.2.3" := by
  refine ⟨⟨['0', '1'], ['2'], ['3'], by decide, by decide, by decide,
    Or.inl (by decide)⟩, rfl, ?_, ?_⟩
  · simp [Format, formatChars, natToChars, Nat.digitChar]
  · have h1 : Parse "01.2.3" = Except.ok ⟨1, 2, 3, none⟩ := rfl
    rw [h1]
    simp [Except.map, Format, formatChars, natToChars, Nat.digitChar]

/-- C6 (amended): Parse(Format(v)) = v for every Version v, and
Format(Parse(s)) = s for every syntactically valid version string whose
numeric groups carry no leading zeros (the canonical strings). -/
theorem C6_round_trip :
    (∀ v : Version, Parse (Format v) = Except.ok v) ∧
    (∀ s : String, CanonShape s.data → (Parse s).map Format = Except.ok s) := by
  constructor
  · intro v
    simp [Parse, Format, parseChars_formatChars v]
  · intro s hc
    obtain ⟨cs⟩ := s
    have h := parseChars_canon cs hc
    cases hp : parseChars cs with
    | none => rw [hp] at h; simp at h
    | some w =>
      rw [hp] at h
      simp only [Option.map_some'] at h
      have hw : formatChars w = cs := Option.some.inj h
      simp [Parse, hp, Except.map, Format, hw]

theorem C6_round_trip_witness :
    Parse (Format ⟨1, 2, 3, some 4⟩) = Except.ok ⟨1, 2, 3, some 4⟩ ∧
    (Parse "1.2.3-rc.4").map Format = Except.ok "1.2.3-rc.4" :=
  ⟨C6_round_trip.1 ⟨1, 2, 3, some 4⟩,
    C6_round_trip.2 "1.2.3-rc.4"
      ⟨['1'], ['2'], ['3'], by decide, by decide, by decide,
        Or.inr ⟨['4'], by decide, by decide⟩⟩⟩

/-- C7: Parse succeeds exactly on strings of shape D+.D+.D+ optionally
followed by -rc.D+, fails with ParseError on everything else, and in
particular rejects "v1.2", "1.2.3-beta.1" and "1.2.3-rc". -/
theorem C7_parse_exact_shape (s : String) :
    ((∃ v, Parse s = Except.ok v) ↔ ValidShape s.data) ∧
    ((∃ v, Parse s = Except.ok v) ∨ Parse s = Except.error ParseError.parseError) ∧
    Parse "v1.2" = Except.error ParseError.parseError ∧
    Parse "1.2.3-beta.1" = Except.error ParseError.parseError ∧
    Parse "1.2.3-rc" = Except.error ParseError.parseError := by
  refine ⟨⟨?_, ?_⟩, ?_, rfl, rfl, rfl⟩
  · rintro ⟨v, hv⟩
    cases hp : parseChars s.data with
    | none => simp [Parse, hp] at hv
    | some w => exact parseChars_sound s.data w hp
  · intro hvs
    obtain ⟨a, b, c, ha, hb, hc, hcase⟩ := hvs
    rcases hcase with heq | ⟨d, hd, heq⟩
    · have hp : parseChars s.data =
          some ⟨digitsToNat a, digitsToNat b, digitsToNat c, none⟩ := by
        rw [heq]
        exact parseChars_stable a b c ha hb hc
      exact ⟨⟨digitsToNat a, digitsToNat b, digitsToNat c, none⟩,
        by simp [Parse, hp]⟩
    · have hp : parseChars s.data =
          some ⟨digitsToNat a, digitsToNat b, digitsToNat c, some (digitsToNat d)⟩ := by
        rw [heq]
        exact parseChars_rc a b c d ha hb hc hd
      exact ⟨⟨digitsToNat a, digitsToNat b, digitsToNat c, some (digitsToNat d)⟩,
        by simp [Parse, hp]⟩
  · cases hp : parseChars s.data with
    | none =>
      right
      simp [Parse, hp]
    | some w =>
      left
      exact ⟨w, by simp [Parse, hp]⟩

/-- C9: the claim extends the rc >= 1 invariant to every result of Parse,
but Parse accepts the shape-valid string "1.2.3-rc.0" and returns rc = 0,
violating the invariant. -/
theorem C9_rc_zero_counterexample :
    Parse "1.2.3-rc.0" = Except.ok ⟨1, 2, 3, some 0⟩ ∧
    rcValid ⟨1, 2, 3, some 0⟩ = false :=
  ⟨rfl, rfl⟩

/-- C9 (amended): every result of Bump satisfies the data-model invariant
(components are naturals and rc, when present, is at least 1), and Format
of any Version produces the MAJOR.MINOR.PATCH or MAJOR.MINOR.PATCH-rc.N
shape; Parse, however, can return rc = 0 on input of the form
"...-rc.0". -/
theorem C9_invariant :
    (∀ (v : Version) (k : BumpKind), rcValid (Bump v k) = true) ∧
    (∀ v : Version, ValidShape (formatChars v)) := by
  constructor
  · intro v k
    obtain ⟨ma, mi, pa, r⟩ := v
    cases k <;> cases r <;> simp [Bump, rcValid]
  · exact validShape_formatChars

end VersionBumper
